import Mathlib

/-!
Shallow embedding of the migration subsystem of the auto-claude-code
repository (tools/migration): version parsing and comparison
(version_manager.py), backup create/restore/cleanup (backup_manager.py),
upgrade orchestration (upgrade_assistant.py) and conflict resolution
(conflict_resolver.py), together with theorems settling the specification
claims about them.

Strings from the Python code are modelled as `List Char` where character
level reasoning is needed (version strings), and as `String` elsewhere.
Python `int` is `Nat` in the non-negative positions the code uses.
-/

set_option maxHeartbeats 1000000

/-! ### Character classes used by `VersionManager.parse_version`

The semantic-version regex is
`^(\d+)\.(\d+)\.(\d+)(?:-([a-zA-Z0-9\-\.]+))?(?:\+([a-zA-Z0-9\-\.]+))?$`.
`isVerChar` is the character class `[a-zA-Z0-9\-\.]` of the pre-release and
build-metadata groups. -/

def isVerChar (c : Char) : Bool :=
  c.isAlphanum || c == '-' || c == '.'

/-- Python `int()` on a string of ASCII digits (the regex guarantees the
groups fed to `int` are nonempty digit runs). -/
def parseNatChars (l : List Char) : Nat :=
  l.foldl (fun a c => 10 * a + (c.toNat - 48)) 0

/-- Little-endian decimal digits of `n` as characters, with explicit fuel so
that the definition is structural (and hence evaluable by the kernel). -/
def digitsRev (fuel n : Nat) : List Char :=
  match fuel with
  | 0 => []
  | f + 1 => if n = 0 then [] else Nat.digitChar (n % 10) :: digitsRev f (n / 10)

/-- Decimal rendering of a natural number, as produced by Python
f-string interpolation of an `int`. -/
def natToChars (n : Nat) : List Char :=
  if n = 0 then ['0'] else (digitsRev n n).reverse

theorem digitsRev_eq_digits (fuel : Nat) : ∀ n : Nat, n ≤ fuel →
    digitsRev fuel n = (Nat.digits 10 n).map Nat.digitChar := by
  induction fuel with
  | zero =>
    intro n hn
    interval_cases n
    simp [digitsRev]
  | succ f ih =>
    intro n hn
    by_cases h0 : n = 0
    · subst h0; simp [digitsRev]
    · rw [digitsRev, if_neg h0, Nat.digits_def' (by norm_num : 1 < 10) (Nat.pos_of_ne_zero h0),
        List.map_cons, ih (n / 10) ?_]
      have : n / 10 < n := Nat.div_lt_self (Nat.pos_of_ne_zero h0) (by norm_num)
      omega

theorem natToChars_eq (n : Nat) :
    natToChars n = if n = 0 then ['0'] else ((Nat.digits 10 n).map Nat.digitChar).reverse := by
  unfold natToChars
  by_cases h : n = 0
  · simp [h]
  · simp [h, digitsRev_eq_digits n n le_rfl]

/-- Python `str.strip()`: remove leading and trailing whitespace. -/
def trimChars (l : List Char) : List Char :=
  ((l.dropWhile Char.isWhitespace).reverse.dropWhile Char.isWhitespace).reverse

/-! ### The `Version` dataclass (version_manager.py) -/

/-- `Version` dataclass: major/minor/patch plus optional pre-release and
build-metadata tags (tags kept as character lists). -/
structure Version where
  major : Nat
  minor : Nat
  patch : Nat
  pre_release : Option (List Char) := none
  build_metadata : Option (List Char) := none
deriving DecidableEq, Repr

/-- `Version.__str__`: `major.minor.patch`, then `-pre` when the pre-release
tag is truthy (Python: non-`None` and nonempty), then `+build` likewise. -/
def renderVersion (v : Version) : List Char :=
  natToChars v.major ++ '.' ::
    (natToChars v.minor ++ '.' ::
      (natToChars v.patch ++
        (match v.pre_release with
         | some p => if p = [] then [] else '-' :: p
         | none => []) ++
        (match v.build_metadata with
         | some b => if b = [] then [] else '+' :: b
         | none => [])))

/-- Continuation of `parse_version` after the mandatory `major.minor.patch`
digit groups have been isolated: the regex requires each `\d+` group to be
nonempty, then allows an optional `-pre` group and an optional `+build`
group, each a nonempty run over `isVerChar`, followed by end of string.
The regex is anchored and every group is a maximal run (a digit run is
followed by a non-digit, and the tag class excludes `+`), so this greedy
reading is the unique possible match. -/
def parseVersionTail (mj mi pa : List Char) (r : List Char) : Option Version :=
  if mj.isEmpty || mi.isEmpty || pa.isEmpty then none
  else
    match r with
    | [] =>
      some ⟨parseNatChars mj, parseNatChars mi, parseNatChars pa, none, none⟩
    | c :: r4 =>
      if c = '-' then
        if (r4.takeWhile isVerChar).isEmpty then none
        else
          match r4.dropWhile isVerChar with
          | [] =>
            some ⟨parseNatChars mj, parseNatChars mi, parseNatChars pa,
              some (r4.takeWhile isVerChar), none⟩
          | c2 :: r6 =>
            if c2 = '+' then
              if (r6.takeWhile isVerChar).isEmpty || !(r6.dropWhile isVerChar).isEmpty then none
              else
                some ⟨parseNatChars mj, parseNatChars mi, parseNatChars pa,
                  some (r4.takeWhile isVerChar), some (r6.takeWhile isVerChar)⟩
            else none
      else if c = '+' then
        if (r4.takeWhile isVerChar).isEmpty || !(r4.dropWhile isVerChar).isEmpty then none
        else
          some ⟨parseNatChars mj, parseNatChars mi, parseNatChars pa, none,
            some (r4.takeWhile isVerChar)⟩
      else none

/-- `VersionManager.parse_version`: strip the input, match the anchored
semantic-version regex, and build a `Version`; `none` models the raised
`ValueError` on a non-matching string. -/
def parseVersion (s0 : List Char) : Option Version :=
  match (trimChars s0).dropWhile Char.isDigit with
  | c1 :: r1 =>
    if c1 = '.' then
      match r1.dropWhile Char.isDigit with
      | c2 :: r2 =>
        if c2 = '.' then
          parseVersionTail ((trimChars s0).takeWhile Char.isDigit) (r1.takeWhile Char.isDigit)
            (r2.takeWhile Char.isDigit) (r2.dropWhile Char.isDigit)
        else none
      | [] => none
    else none
  | [] => none

/-! ### Version comparison (`__lt__`, `__eq__`, `__le__`, `__gt__`, `__ge__`) -/

/-- Python string `<`: lexicographic comparison by code point, a proper
prefix being smaller. -/
def lexLt : List Char → List Char → Bool
  | [], [] => false
  | [], _ :: _ => true
  | _ :: _, [] => false
  | a :: as, b :: bs => if a < b then true else if b < a then false else lexLt as bs

/-- Python tuple comparison `(a.major, a.minor, a.patch) < (b.major, b.minor, b.patch)`. -/
def tripleLt (a b : Version) : Bool :=
  decide (a.major < b.major ∨ (a.major = b.major ∧
    (a.minor < b.minor ∨ (a.minor = b.minor ∧ a.patch < b.patch))))

/-- Python tuple equality of the `(major, minor, patch)` triples. -/
def tripleEq (a b : Version) : Bool :=
  decide (a.major = b.major ∧ a.minor = b.minor ∧ a.patch = b.patch)

/-- `Version.__lt__`: compare `(major, minor, patch)` tuples first; with
equal tuples a release (no pre-release tag) is never less, a pre-release is
less than a release, and two pre-release tags compare as Python strings. -/
def vlt (a b : Version) : Bool :=
  if !tripleEq a b then tripleLt a b
  else
    match a.pre_release, b.pre_release with
    | none, none => false
    | none, some _ => false
    | some _, none => true
    | some p, some q => lexLt p q

/-- `Version.__eq__`: field equality on major, minor, patch and pre-release;
`build_metadata` is not consulted. -/
def veq (a b : Version) : Bool :=
  decide (a.major = b.major) && decide (a.minor = b.minor) &&
    decide (a.patch = b.patch) && decide (a.pre_release = b.pre_release)

/-- `Version.__le__`: `self < other or self == other`. -/
def vle (a b : Version) : Bool := vlt a b || veq a b

/-- `Version.__gt__`: `not (self < other or self == other)`. -/
def vgt (a b : Version) : Bool := !(vlt a b || veq a b)

/-- `Version.__ge__`: `not self < other`. -/
def vge (a b : Version) : Bool := !vlt a b

/-! ### Digit-rendering lemmas -/

theorem digitChar_toNat_sub (d : Nat) (hd : d < 10) : (Nat.digitChar d).toNat - 48 = d := by
  interval_cases d <;> decide

theorem digitChar_isDigit (d : Nat) (hd : d < 10) : (Nat.digitChar d).isDigit = true := by
  interval_cases d <;> decide

theorem parseNatChars_append_one (l : List Char) (c : Char) :
    parseNatChars (l ++ [c]) = 10 * parseNatChars l + (c.toNat - 48) := by
  simp [parseNatChars, List.foldl_append]

theorem parseNatChars_digits (ds : List Nat) (h : ∀ d ∈ ds, d < 10) :
    parseNatChars ((ds.map Nat.digitChar).reverse) = Nat.ofDigits 10 ds := by
  induction ds with
  | nil => simp [parseNatChars, Nat.ofDigits]
  | cons d ds ih =>
    rw [List.map_cons, List.reverse_cons, parseNatChars_append_one,
      ih (fun x hx => h x (List.mem_cons_of_mem d hx)),
      digitChar_toNat_sub d (h d (List.mem_cons_self d ds)), Nat.ofDigits_cons]
    ring

theorem parseNatChars_natToChars (n : Nat) : parseNatChars (natToChars n) = n := by
  rw [natToChars_eq]
  by_cases h : n = 0
  · simp [h]; decide
  · rw [if_neg h, parseNatChars_digits _ (fun d hd => Nat.digits_lt_base (by norm_num) hd),
      Nat.ofDigits_digits]

theorem natToChars_ne_nil (n : Nat) : natToChars n ≠ [] := by
  rw [natToChars_eq]
  by_cases h : n = 0
  · simp [h]
  · simp only [if_neg h]
    simp [Nat.digits_ne_nil_iff_ne_zero.mpr h]

theorem natToChars_all_digit (n : Nat) : ∀ c ∈ natToChars n, c.isDigit = true := by
  rw [natToChars_eq]
  by_cases h : n = 0
  · simp [h]
  · simp only [if_neg h, List.mem_reverse, List.mem_map]
    rintro c ⟨d, hd, rfl⟩
    exact digitChar_isDigit d (Nat.digits_lt_base (by norm_num) hd)

/-! ### takeWhile / dropWhile / trim helpers -/

theorem takeWhile_app_of_all {p : Char → Bool} (l r : List Char) (h : ∀ c ∈ l, p c = true) :
    (l ++ r).takeWhile p = l ++ r.takeWhile p := by
  induction l with
  | nil => simp
  | cons a l ih =>
    rw [List.cons_append, List.takeWhile_cons, h a (List.mem_cons_self a l)]
    simp [ih (fun c hc => h c (List.mem_cons_of_mem a hc))]

theorem dropWhile_app_of_all {p : Char → Bool} (l r : List Char) (h : ∀ c ∈ l, p c = true) :
    (l ++ r).dropWhile p = r.dropWhile p := by
  induction l with
  | nil => simp
  | cons a l ih =>
    rw [List.cons_append, List.dropWhile_cons, h a (List.mem_cons_self a l)]
    simp [ih (fun c hc => h c (List.mem_cons_of_mem a hc))]

theorem takeWhile_all_of_all {p : Char → Bool} (l : List Char) (h : ∀ c ∈ l, p c = true) :
    l.takeWhile p = l := by
  have := takeWhile_app_of_all l [] h
  simpa using this

theorem dropWhile_nil_of_all {p : Char → Bool} (l : List Char) (h : ∀ c ∈ l, p c = true) :
    l.dropWhile p = [] := by
  have := dropWhile_app_of_all l [] h
  simpa using this

theorem mem_takeWhile_sat {p : Char → Bool} : ∀ (l : List Char), ∀ c ∈ l.takeWhile p, p c = true := by
  intro l
  induction l with
  | nil => simp
  | cons a l ih =>
    rw [List.takeWhile_cons]
    by_cases hp : p a = true
    · simp only [hp, if_true]
      intro c hc
      rcases List.mem_cons.mp hc with h1 | h2
      · exact h1 ▸ hp
      · exact ih c h2
    · simp [hp]

theorem dropWhile_of_all {p : Char → Bool} (l : List Char) (h : ∀ c ∈ l, p c = false) :
    l.dropWhile p = l := by
  cases l with
  | nil => rfl
  | cons a l => rw [List.dropWhile_cons, h a (List.mem_cons_self a l)]; simp

theorem trimChars_of_no_ws (l : List Char) (h : ∀ c ∈ l, c.isWhitespace = false) :
    trimChars l = l := by
  unfold trimChars
  rw [dropWhile_of_all l h, dropWhile_of_all l.reverse (fun c hc => h c (List.mem_reverse.mp hc)),
    List.reverse_reverse]

/-! ### Character-class facts -/

theorem ws_char_cases (c : Char) (h : c.isWhitespace = true) :
    c = ' ' ∨ c = '\t' ∨ c = '\r' ∨ c = '\n' := by
  simp only [Char.isWhitespace, Bool.or_eq_true, decide_eq_true_eq] at h
  tauto

theorem isDigit_not_ws (c : Char) (h : c.isDigit = true) : c.isWhitespace = false := by
  by_contra hw
  rcases ws_char_cases c (by revert hw; cases c.isWhitespace <;> simp) with rfl | rfl | rfl | rfl <;>
    simp_all

theorem isVerChar_not_ws (c : Char) (h : isVerChar c = true) : c.isWhitespace = false := by
  by_contra hw
  rcases ws_char_cases c (by revert hw; cases c.isWhitespace <;> simp) with rfl | rfl | rfl | rfl <;>
    simp_all [isVerChar]

theorem isVerChar_not_plus (c : Char) (h : isVerChar c = true) : c ≠ '+' := by
  rintro rfl
  simp [isVerChar] at h

theorem natToChars_isEmpty_false (n : Nat) : (natToChars n).isEmpty = false := by
  cases h : natToChars n with
  | nil => exact absurd h (natToChars_ne_nil n)
  | cons a l => rfl

theorem veq_refl (v : Version) : veq v v = true := by simp [veq]

/-! ### Round trip of `parse_version` and `Version.__str__` -/

/-- Invariant satisfied by every `Version` a successful `parse_version`
produces: each optional tag is a nonempty run over the tag character class. -/
def VersionWF (v : Version) : Prop :=
  (∀ p, v.pre_release = some p → p ≠ [] ∧ ∀ c ∈ p, isVerChar c = true) ∧
  (∀ b, v.build_metadata = some b → b ≠ [] ∧ ∀ c ∈ b, isVerChar c = true)

theorem parseVersionTail_wf {mj mi pa r : List Char} {v : Version}
    (h : parseVersionTail mj mi pa r = some v) : VersionWF v := by
  unfold parseVersionTail at h
  split at h
  · exact absurd h (by simp)
  · split at h
    · cases h
      exact ⟨by simp, by simp⟩
    · rename_i c r4
      split at h
      · split at h
        · exact absurd h (by simp)
        · rename_i hpre
          split at h
          · cases h
            refine ⟨?_, by simp⟩
            intro p hp
            cases hp
            exact ⟨fun hnil => hpre (by simp [hnil]), fun x hx => mem_takeWhile_sat r4 x hx⟩
          · rename_i c2 r6 heq
            split at h
            · split at h
              · exact absurd h (by simp)
              · rename_i hbld
                cases h
                constructor
                · intro p hp
                  cases hp
                  exact ⟨fun hnil => hpre (by simp [hnil]),
                    fun x hx => mem_takeWhile_sat r4 x hx⟩
                · intro b hb
                  cases hb
                  refine ⟨fun hnil => ?_, fun x hx => mem_takeWhile_sat r6 x hx⟩
                  simp [hnil] at hbld
            · exact absurd h (by simp)
      · split at h
        · split at h
          · exact absurd h (by simp)
          · rename_i hbld
            cases h
            refine ⟨by simp, ?_⟩
            intro b hb
            cases hb
            refine ⟨fun hnil => ?_, fun x hx => mem_takeWhile_sat r4 x hx⟩
            simp [hnil] at hbld
        · exact absurd h (by simp)

theorem isEmpty_false_of_ne_nil {l : List Char} (h : l ≠ []) : l.isEmpty = false := by
  cases l with
  | nil => exact absurd rfl h
  | cons a l => rfl

theorem digitRun_split (A : List Char) (c : Char) (R : List Char)
    (hA : ∀ x ∈ A, x.isDigit = true) (hc : c.isDigit = false) :
    (A ++ c :: R).takeWhile Char.isDigit = A ∧ (A ++ c :: R).dropWhile Char.isDigit = c :: R := by
  constructor
  · rw [takeWhile_app_of_all A _ hA, List.takeWhile_cons, hc]
    simp
  · rw [dropWhile_app_of_all A _ hA, List.dropWhile_cons, hc]
    simp

theorem verRun_split (A : List Char) (c : Char) (R : List Char)
    (hA : ∀ x ∈ A, isVerChar x = true) (hc : isVerChar c = false) :
    (A ++ c :: R).takeWhile isVerChar = A ∧ (A ++ c :: R).dropWhile isVerChar = c :: R := by
  constructor
  · rw [takeWhile_app_of_all A _ hA, List.takeWhile_cons, hc]
    simp
  · rw [dropWhile_app_of_all A _ hA, List.dropWhile_cons, hc]
    simp

theorem no_ws_append {l r : List Char} (hl : ∀ c ∈ l, c.isWhitespace = false)
    (hr : ∀ c ∈ r, c.isWhitespace = false) : ∀ c ∈ l ++ r, c.isWhitespace = false := by
  intro c hc
  rcases List.mem_append.mp hc with h | h
  · exact hl c h
  · exact hr c h

theorem no_ws_cons {c0 : Char} {r : List Char} (h0 : c0.isWhitespace = false)
    (hr : ∀ c ∈ r, c.isWhitespace = false) : ∀ c ∈ c0 :: r, c.isWhitespace = false := by
  intro c hc
  rcases List.mem_cons.mp hc with rfl | h
  · exact h0
  · exact hr c h

theorem no_ws_nil : ∀ c ∈ ([] : List Char), c.isWhitespace = false := by simp

theorem natToChars_no_ws (n : Nat) : ∀ c ∈ natToChars n, c.isWhitespace = false :=
  fun c hc => isDigit_not_ws c (natToChars_all_digit n c hc)

theorem verChars_no_ws {l : List Char} (h : ∀ c ∈ l, isVerChar c = true) :
    ∀ c ∈ l, c.isWhitespace = false :=
  fun c hc => isVerChar_not_ws c (h c hc)

/-- Reduction of `parseVersion` on an already-trimmed string of the shape the
renderer produces: three digit runs separated by dots, followed by a tail
that does not begin with a digit. -/
theorem parseVersion_eq_tail (M m p : Nat) (T : List Char)
    (hT : trimChars (natToChars M ++ '.' :: (natToChars m ++ '.' :: (natToChars p ++ T)))
      = natToChars M ++ '.' :: (natToChars m ++ '.' :: (natToChars p ++ T)))
    (hhead : ∀ c, T.head? = some c → c.isDigit = false) :
    parseVersion (natToChars M ++ '.' :: (natToChars m ++ '.' :: (natToChars p ++ T)))
      = parseVersionTail (natToChars M) (natToChars m) (natToChars p) T := by
  have htp : (natToChars p ++ T).takeWhile Char.isDigit = natToChars p ∧
      (natToChars p ++ T).dropWhile Char.isDigit = T := by
    cases T with
    | nil =>
      rw [List.append_nil]
      exact ⟨takeWhile_all_of_all _ (natToChars_all_digit p),
        dropWhile_nil_of_all _ (natToChars_all_digit p)⟩
    | cons c T' => exact digitRun_split _ c _ (natToChars_all_digit p) (hhead c rfl)
  unfold parseVersion
  rw [hT, (digitRun_split _ '.' _ (natToChars_all_digit M) (by decide)).2]
  dsimp only
  rw [if_pos rfl, (digitRun_split _ '.' _ (natToChars_all_digit m) (by decide)).2]
  dsimp only
  rw [if_pos rfl, (digitRun_split _ '.' _ (natToChars_all_digit M) (by decide)).1,
    (digitRun_split _ '.' _ (natToChars_all_digit m) (by decide)).1, htp.1, htp.2]

theorem parseVersion_wf {s : List Char} {v : Version} (h : parseVersion s = some v) :
    VersionWF v := by
  unfold parseVersion at h
  split at h
  · split at h
    · split at h
      · split at h
        · exact parseVersionTail_wf h
        · exact absurd h (by simp)
      · exact absurd h (by simp)
    · exact absurd h (by simp)
  · exact absurd h (by simp)

theorem parseVersionTail_none_none (mj mi pa : List Char) (h1 : mj.isEmpty = false)
    (h2 : mi.isEmpty = false) (h3 : pa.isEmpty = false) :
    parseVersionTail mj mi pa []
      = some ⟨parseNatChars mj, parseNatChars mi, parseNatChars pa, none, none⟩ := by
  unfold parseVersionTail
  simp [h1, h2, h3]

theorem parseVersionTail_pre_none (mj mi pa P : List Char) (h1 : mj.isEmpty = false)
    (h2 : mi.isEmpty = false) (h3 : pa.isEmpty = false)
    (hP : P ≠ []) (hPc : ∀ c ∈ P, isVerChar c = true) :
    parseVersionTail mj mi pa ('-' :: P)
      = some ⟨parseNatChars mj, parseNatChars mi, parseNatChars pa, some P, none⟩ := by
  unfold parseVersionTail
  simp [h1, h2, h3, takeWhile_all_of_all P hPc, dropWhile_nil_of_all P hPc,
    isEmpty_false_of_ne_nil hP]

theorem parseVersionTail_pre_bld (mj mi pa P B : List Char) (h1 : mj.isEmpty = false)
    (h2 : mi.isEmpty = false) (h3 : pa.isEmpty = false)
    (hP : P ≠ []) (hPc : ∀ c ∈ P, isVerChar c = true)
    (hB : B ≠ []) (hBc : ∀ c ∈ B, isVerChar c = true) :
    parseVersionTail mj mi pa ('-' :: (P ++ '+' :: B))
      = some ⟨parseNatChars mj, parseNatChars mi, parseNatChars pa, some P, some B⟩ := by
  unfold parseVersionTail
  simp [h1, h2, h3, (verRun_split P '+' B hPc (by decide)).1, (verRun_split P '+' B hPc (by decide)).2,
    takeWhile_all_of_all B hBc, dropWhile_nil_of_all B hBc,
    isEmpty_false_of_ne_nil hP, isEmpty_false_of_ne_nil hB]

theorem parseVersionTail_none_bld (mj mi pa B : List Char) (h1 : mj.isEmpty = false)
    (h2 : mi.isEmpty = false) (h3 : pa.isEmpty = false)
    (hB : B ≠ []) (hBc : ∀ c ∈ B, isVerChar c = true) :
    parseVersionTail mj mi pa ('+' :: B)
      = some ⟨parseNatChars mj, parseNatChars mi, parseNatChars pa, none, some B⟩ := by
  unfold parseVersionTail
  simp [h1, h2, h3, takeWhile_all_of_all B hBc, dropWhile_nil_of_all B hBc,
    isEmpty_false_of_ne_nil hB, (show ('+' : Char) ≠ '-' by decide)]

/-- Rendering a well-formed `Version` and parsing it back returns it
unchanged, structurally. -/
theorem parseVersion_renderVersion (v : Version) (hWF : VersionWF v) :
    parseVersion (renderVersion v) = some v := by
  obtain ⟨M, m, p, pre, bld⟩ := v
  obtain ⟨hpre, hbld⟩ := hWF
  cases pre with
  | none =>
    cases bld with
    | none =>
      have hr : renderVersion ⟨M, m, p, none, none⟩
          = natToChars M ++ '.' :: (natToChars m ++ '.' :: (natToChars p ++ ([] : List Char))) := by
        simp [renderVersion]
      have hnws : ∀ c ∈ natToChars M ++ '.' ::
          (natToChars m ++ '.' :: (natToChars p ++ ([] : List Char))), c.isWhitespace = false :=
        no_ws_append (natToChars_no_ws M) (no_ws_cons (by decide)
          (no_ws_append (natToChars_no_ws m) (no_ws_cons (by decide)
            (no_ws_append (natToChars_no_ws p) no_ws_nil))))
      rw [hr, parseVersion_eq_tail M m p [] (trimChars_of_no_ws _ hnws)
          (fun c hc => by simp at hc),
        parseVersionTail_none_none _ _ _ (natToChars_isEmpty_false M)
          (natToChars_isEmpty_false m) (natToChars_isEmpty_false p)]
      simp [parseNatChars_natToChars]
    | some B =>
      obtain ⟨hB, hBc⟩ := hbld B rfl
      have hr : renderVersion ⟨M, m, p, none, some B⟩
          = natToChars M ++ '.' :: (natToChars m ++ '.' :: (natToChars p ++ ('+' :: B))) := by
        simp [renderVersion, hB]
      have hnws : ∀ c ∈ natToChars M ++ '.' ::
          (natToChars m ++ '.' :: (natToChars p ++ ('+' :: B))), c.isWhitespace = false :=
        no_ws_append (natToChars_no_ws M) (no_ws_cons (by decide)
          (no_ws_append (natToChars_no_ws m) (no_ws_cons (by decide)
            (no_ws_append (natToChars_no_ws p) (no_ws_cons (by decide) (verChars_no_ws hBc))))))
      rw [hr, parseVersion_eq_tail M m p ('+' :: B) (trimChars_of_no_ws _ hnws)
          (fun c hc => by cases hc; decide),
        parseVersionTail_none_bld _ _ _ B (natToChars_isEmpty_false M)
          (natToChars_isEmpty_false m) (natToChars_isEmpty_false p) hB hBc]
      simp [parseNatChars_natToChars]
  | some P =>
    obtain ⟨hP, hPc⟩ := hpre P rfl
    cases bld with
    | none =>
      have hr : renderVersion ⟨M, m, p, some P, none⟩
          = natToChars M ++ '.' :: (natToChars m ++ '.' :: (natToChars p ++ ('-' :: P))) := by
        simp [renderVersion, hP]
      have hnws : ∀ c ∈ natToChars M ++ '.' ::
          (natToChars m ++ '.' :: (natToChars p ++ ('-' :: P))), c.isWhitespace = false :=
        no_ws_append (natToChars_no_ws M) (no_ws_cons (by decide)
          (no_ws_append (natToChars_no_ws m) (no_ws_cons (by decide)
            (no_ws_append (natToChars_no_ws p) (no_ws_cons (by decide) (verChars_no_ws hPc))))))
      rw [hr, parseVersion_eq_tail M m p ('-' :: P) (trimChars_of_no_ws _ hnws)
          (fun c hc => by cases hc; decide),
        parseVersionTail_pre_none _ _ _ P (natToChars_isEmpty_false M)
          (natToChars_isEmpty_false m) (natToChars_isEmpty_false p) hP hPc]
      simp [parseNatChars_natToChars]
    | some B =>
      obtain ⟨hB, hBc⟩ := hbld B rfl
      have hr : renderVersion ⟨M, m, p, some P, some B⟩
          = natToChars M ++ '.' ::
            (natToChars m ++ '.' :: (natToChars p ++ ('-' :: (P ++ '+' :: B)))) := by
        simp [renderVersion, hP, hB]
      have hnws : ∀ c ∈ natToChars M ++ '.' ::
          (natToChars m ++ '.' :: (natToChars p ++ ('-' :: (P ++ '+' :: B)))),
          c.isWhitespace = false :=
        no_ws_append (natToChars_no_ws M) (no_ws_cons (by decide)
          (no_ws_append (natToChars_no_ws m) (no_ws_cons (by decide)
            (no_ws_append (natToChars_no_ws p) (no_ws_cons (by decide)
              (no_ws_append (verChars_no_ws hPc) (no_ws_cons (by decide)
                (verChars_no_ws hBc))))))))
      rw [hr, parseVersion_eq_tail M m p ('-' :: (P ++ '+' :: B)) (trimChars_of_no_ws _ hnws)
          (fun c hc => by cases hc; decide),
        parseVersionTail_pre_bld _ _ _ P B (natToChars_isEmpty_false M)
          (natToChars_isEmpty_false m) (natToChars_isEmpty_false p) hP hPc hB hBc]
      simp [parseNatChars_natToChars]

/-! ### Python string `<` agrees with mathematical lexicographic order -/

theorem lexLt_iff_lex (p : List Char) : ∀ q : List Char,
    (lexLt p q = true ↔ List.Lex (· < ·) p q) := by
  induction p with
  | nil =>
    intro q
    cases q with
    | nil =>
      constructor
      · intro h; simp [lexLt] at h
      · intro h; cases h
    | cons b bs => exact iff_of_true rfl List.Lex.nil
  | cons a as ih =>
    intro q
    cases q with
    | nil =>
      constructor
      · intro h; simp [lexLt] at h
      · intro h; cases h
    | cons b bs =>
      show (if a < b then true else if b < a then false else lexLt as bs) = true ↔ _
      by_cases hab : a < b
      · rw [if_pos hab]
        exact iff_of_true rfl (List.Lex.rel hab)
      · rw [if_neg hab]
        by_cases hba : b < a
        · rw [if_pos hba]
          constructor
          · intro h; cases h
          · intro h
            cases h with
            | rel h' => exact absurd h' hab
            | cons h' => exact absurd hba (lt_irrefl a)
        · rw [if_neg hba]
          have hEq : a = b := le_antisymm (not_lt.mp hba) (not_lt.mp hab)
          subst hEq
          rw [ih bs]
          constructor
          · exact List.Lex.cons
          · intro h
            cases h with
            | rel h' => exact absurd h' (lt_irrefl a)
            | cons h' => exact h'

/-! ### `UpgradeAssistant.check_for_upgrades` (upgrade_assistant.py)

The fixed template catalog is the key set of `self.template_versions`, in
insertion order. -/

def templateVersionKeys : List String :=
  ["1.0.0", "1.1.0", "1.2.0", "2.0.0", "2.0.1"]

/-- The catalog parsed into `Version` values, as
`[self.version_manager.parse_version(v) for v in self.template_versions.keys()]`
(every key parses, so the `filterMap` drops nothing). -/
def catalogVersions : List Version :=
  templateVersionKeys.filterMap (fun s => parseVersion s.data)

/-- `check_for_upgrades`: with no detected version, return the last catalog
key; otherwise sort the parsed catalog ascending with `Version.__lt__`
(Python `list.sort`, modelled by stable insertion sort) and return the
string form of the first entry strictly greater than the current version. -/
def checkForUpgrades (current : Option Version) : Option String :=
  match current with
  | none => templateVersionKeys.getLast?
  | some cv =>
    ((catalogVersions.insertionSort (fun a b => vlt a b = true)).find?
        (fun v => vgt v cv)).map (fun v => (renderVersion v).asString)

example : catalogVersions =
    [⟨1, 0, 0, none, none⟩, ⟨1, 1, 0, none, none⟩, ⟨1, 2, 0, none, none⟩,
     ⟨2, 0, 0, none, none⟩, ⟨2, 0, 1, none, none⟩] := by decide

example : checkForUpgrades (some ⟨1, 1, 0, none, none⟩) = some "1.2.0" := by decide

example : checkForUpgrades (some ⟨2, 0, 1, none, none⟩) = none := by decide

example : checkForUpgrades (some ⟨1, 1, 5, none, none⟩) = some "1.2.0" := by decide

example : checkForUpgrades none = some "2.0.1" := by decide

/-! ### `BackupManager.list_backups` / `delete_backup` / `cleanup_old_backups`
(backup_manager.py)

The backup store is the set of `*.zip` archives in `.claude/backups`,
modelled as a list of named entries with the timestamp `list_backups`
sorts by. -/

structure BackupEntry where
  name : String
  timestamp : Nat
deriving DecidableEq, Repr

/-- `backups.sort(key=lambda b: b.timestamp, reverse=True)`: most recent
first. Python's sort is stable; stable insertion sort models it. -/
def recentFirst (a b : BackupEntry) : Prop := b.timestamp ≤ a.timestamp

instance : DecidableRel recentFirst := fun a b => Nat.decLe b.timestamp a.timestamp

instance : IsTotal BackupEntry recentFirst :=
  ⟨fun a b => (le_total b.timestamp a.timestamp).imp id id⟩

instance : IsTrans BackupEntry recentFirst :=
  ⟨fun _ _ _ hab hbc => le_trans hbc hab⟩

/-- `list_backups`: every archive of the store, newest first. -/
def listBackups (store : List BackupEntry) : List BackupEntry :=
  store.insertionSort recentFirst

/-- `delete_backup`: unlink the named archive if present, reporting whether
it was. -/
def deleteBackup (store : List BackupEntry) (n : String) : List BackupEntry × Bool :=
  if store.any (fun b => decide (b.name = n)) then
    (store.filter (fun b => !decide (b.name = n)), true)
  else (store, false)

/-- `cleanup_old_backups(keep_count)`: list the backups newest first; when
more than `keep_count` exist, delete the tail of the listing, counting
successful deletions. Returns the resulting store and the count. -/
def cleanupOldBackups (store : List BackupEntry) (keepCount : Nat) :
    List BackupEntry × Nat :=
  if (listBackups store).length ≤ keepCount then (store, 0)
  else
    ((listBackups store).drop keepCount).foldl
      (fun acc b =>
        ((deleteBackup acc.1 b.name).1,
          if (deleteBackup acc.1 b.name).2 then acc.2 + 1 else acc.2))
      (store, 0)

theorem filter_eq_self_of {α : Type} {p : α → Bool} (l : List α)
    (h : ∀ a ∈ l, p a = true) : l.filter p = l := by
  induction l with
  | nil => rfl
  | cons a l ih =>
    rw [List.filter_cons, h a (List.mem_cons_self a l)]
    simp [ih (fun x hx => h x (List.mem_cons_of_mem a hx))]

theorem filter_eq_nil_of {α : Type} {p : α → Bool} (l : List α)
    (h : ∀ a ∈ l, p a = false) : l.filter p = [] := by
  induction l with
  | nil => rfl
  | cons a l ih =>
    rw [List.filter_cons, h a (List.mem_cons_self a l)]
    simp [ih (fun x hx => h x (List.mem_cons_of_mem a hx))]

theorem cleanup_deleteFold (ds : List BackupEntry) : ∀ (store : List BackupEntry) (c : Nat),
    (∀ d ∈ ds, d.name ∈ store.map BackupEntry.name) →
    (ds.map BackupEntry.name).Nodup →
    ds.foldl
      (fun acc b =>
        ((deleteBackup acc.1 b.name).1,
          if (deleteBackup acc.1 b.name).2 then acc.2 + 1 else acc.2))
      (store, c)
    = (store.filter (fun b => !decide (b.name ∈ ds.map BackupEntry.name)), c + ds.length) := by
  induction ds with
  | nil =>
    intro store c _ _
    rw [List.foldl_nil, filter_eq_self_of store (fun a _ => by simp)]
    rfl
  | cons d ds ih =>
    intro store c hmem hnodup
    rw [List.map_cons] at hnodup
    have hcons := List.nodup_cons.mp hnodup
    have hd : d.name ∈ store.map BackupEntry.name := hmem d (List.mem_cons_self d ds)
    have hany : store.any (fun b => decide (b.name = d.name)) = true := by
      rcases List.mem_map.mp hd with ⟨b, hb, hbn⟩
      exact List.any_eq_true.mpr ⟨b, hb, by simp [hbn]⟩
    have hstep : deleteBackup store d.name
        = (store.filter (fun b => !decide (b.name = d.name)), true) := by
      rw [deleteBackup, if_pos hany]
    rw [List.foldl_cons, hstep]
    dsimp only
    rw [if_pos rfl]
    have hmem' : ∀ x ∈ ds, x.name ∈ (store.filter (fun b => !decide (b.name = d.name))).map
        BackupEntry.name := by
      intro x hx
      rcases List.mem_map.mp (hmem x (List.mem_cons_of_mem d hx)) with ⟨b, hb, hbn⟩
      refine List.mem_map.mpr ⟨b, List.mem_filter.mpr ⟨hb, ?_⟩, hbn⟩
      have hne : b.name ≠ d.name := by
        intro hEq
        apply hcons.1
        rw [← hEq, hbn]
        exact List.mem_map_of_mem BackupEntry.name hx
      simp [hne]
    rw [ih _ (c + 1) hmem' hcons.2, Prod.mk.injEq]
    constructor
    · rw [List.filter_filter]
      apply List.filter_congr
      intro b _
      simp only [List.map_cons, List.mem_cons]
      rw [Bool.decide_or, Bool.not_or, Bool.and_comm]
    · rw [List.length_cons]
      omega

theorem filter_append_not_names (t d : List BackupEntry)
    (hdisj : ∀ a ∈ t, a.name ∉ d.map BackupEntry.name) :
    (t ++ d).filter (fun b => !decide (b.name ∈ d.map BackupEntry.name)) = t := by
  rw [List.filter_append, filter_eq_self_of t (fun a ha => by simp [hdisj a ha]),
    filter_eq_nil_of d (fun a ha => by simp [List.mem_map_of_mem BackupEntry.name ha]),
    List.append_nil]

theorem cleanup_filter_perm (store : List BackupEntry) (k : Nat)
    (hnodup : (store.map BackupEntry.name).Nodup) :
    (store.filter (fun b =>
      !decide (b.name ∈ ((listBackups store).drop k).map BackupEntry.name))).Perm
      ((listBackups store).take k) := by
  have hperm : (listBackups store).Perm store := List.perm_insertionSort recentFirst store
  have hnodup' : ((listBackups store).map BackupEntry.name).Nodup :=
    ((hperm.map BackupEntry.name).nodup_iff).mpr hnodup
  have hsplit : (listBackups store).take k ++ (listBackups store).drop k = listBackups store :=
    List.take_append_drop k _
  have hnodup2 : (((listBackups store).take k).map BackupEntry.name ++
      ((listBackups store).drop k).map BackupEntry.name).Nodup := by
    rw [← List.map_append, hsplit]
    exact hnodup'
  have hdisj := (List.nodup_append.mp hnodup2).2.2
  have htdisj : ∀ a ∈ (listBackups store).take k,
      a.name ∉ ((listBackups store).drop k).map BackupEntry.name :=
    fun a ha hc => hdisj (List.mem_map_of_mem BackupEntry.name ha) hc
  have h2 := filter_append_not_names ((listBackups store).take k)
    ((listBackups store).drop k) htdisj
  rw [hsplit] at h2
  exact ((hperm.filter _).symm).trans (h2 ▸ List.Perm.refl _)

theorem listBackups_take_drop_recent (store : List BackupEntry) (k : Nat) :
    ∀ b ∈ (listBackups store).take k, ∀ d ∈ (listBackups store).drop k,
      d.timestamp ≤ b.timestamp := by
  have hs : List.Sorted recentFirst (listBackups store) :=
    List.sorted_insertionSort recentFirst store
  rw [← List.take_append_drop k (listBackups store)] at hs
  exact fun b hb d hd => (List.pairwise_append.mp hs).2.2 b hb d hd

/-! ### `ConflictResolver.resolve_all_conflicts` (conflict_resolver.py)

Only the fields the loop consults are modelled. `resolve_conflict` is an
arbitrary strategy-selection function passed as a parameter: the claim under
verification quantifies over every resolution it may produce. Confidence is
a `float` in the source, modelled exactly as a rational. -/

structure ConflictInfo where
  file_path : String
  local_content : String
  remote_content : String
deriving Repr, DecidableEq

structure ConflictResolution where
  resolution_strategy : String
  resolved_content : String
  confidence : ℚ
  manual_review_required : Bool
deriving Repr, DecidableEq

/-- The `results` dictionary built by `resolve_all_conflicts`
(`files_modified` is a Python `set`; it is kept as the list of additions). -/
structure ResolveAllResults where
  total_conflicts : Nat
  auto_resolved : Nat
  manual_required : Nat
  failed_resolutions : Nat
  files_modified : List String
deriving Repr, DecidableEq

/-- One iteration of the loop in `resolve_all_conflicts`: a manual-review
resolution is counted `manual_required`; otherwise, under `auto_resolve`
with confidence at least 0.8, `_apply_resolution` writes the resolved
content to the conflict's file (the write is recorded in the second
component); every other case is counted `manual_required`. -/
def resolveAllStep (auto_resolve : Bool) (resolve : ConflictInfo → ConflictResolution)
    (acc : ResolveAllResults × List (String × String)) (c : ConflictInfo) :
    ResolveAllResults × List (String × String) :=
  if (resolve c).manual_review_required then
    ({ acc.1 with manual_required := acc.1.manual_required + 1 }, acc.2)
  else if auto_resolve && decide ((0.8 : ℚ) ≤ (resolve c).confidence) then
    ({ acc.1 with
        auto_resolved := acc.1.auto_resolved + 1
        files_modified := acc.1.files_modified ++ [c.file_path] },
      acc.2 ++ [(c.file_path, (resolve c).resolved_content)])
  else
    ({ acc.1 with manual_required := acc.1.manual_required + 1 }, acc.2)

/-- `resolve_all_conflicts(conflicts, auto_resolve)`: fold the per-conflict
loop over the conflict list, starting from the zeroed counters; returns the
counters and the list of `(path, content)` writes performed. -/
def resolveAllConflicts (resolve : ConflictInfo → ConflictResolution)
    (conflicts : List ConflictInfo) (auto_resolve : Bool) :
    ResolveAllResults × List (String × String) :=
  conflicts.foldl (resolveAllStep auto_resolve resolve)
    (⟨conflicts.length, 0, 0, 0, []⟩, [])

theorem resolveAll_fold (auto_resolve : Bool) (resolve : ConflictInfo → ConflictResolution) :
    ∀ (cs : List ConflictInfo) (acc : ResolveAllResults × List (String × String)),
    (cs.foldl (resolveAllStep auto_resolve resolve) acc).2
      = acc.2 ++ (cs.filter (fun c => !(resolve c).manual_review_required &&
          (auto_resolve && decide ((0.8 : ℚ) ≤ (resolve c).confidence)))).map
          (fun c => (c.file_path, (resolve c).resolved_content))
    ∧ (cs.foldl (resolveAllStep auto_resolve resolve) acc).1.manual_required
      = acc.1.manual_required + (cs.filter (fun c => (resolve c).manual_review_required ||
          !(auto_resolve && decide ((0.8 : ℚ) ≤ (resolve c).confidence)))).length := by
  intro cs
  induction cs with
  | nil => intro acc; simp
  | cons c cs ih =>
    intro acc
    rw [List.foldl_cons]
    by_cases hman : (resolve c).manual_review_required = true
    · have hstep : resolveAllStep auto_resolve resolve acc c
          = ({ acc.1 with manual_required := acc.1.manual_required + 1 }, acc.2) := by
        rw [resolveAllStep, if_pos hman]
      rw [hstep]
      obtain ⟨ih1, ih2⟩ := ih ({ acc.1 with manual_required := acc.1.manual_required + 1 }, acc.2)
      refine ⟨?_, ?_⟩
      · rw [ih1, List.filter_cons]
        simp [hman]
      · rw [ih2, List.filter_cons]
        simp [hman]
        omega
    · have hman' : (resolve c).manual_review_required = false := by
        revert hman; cases (resolve c).manual_review_required <;> simp
      by_cases hauto : (auto_resolve && decide ((0.8 : ℚ) ≤ (resolve c).confidence)) = true
      · have hstep : resolveAllStep auto_resolve resolve acc c
            = ({ acc.1 with
                  auto_resolved := acc.1.auto_resolved + 1
                  files_modified := acc.1.files_modified ++ [c.file_path] },
                acc.2 ++ [(c.file_path, (resolve c).resolved_content)]) := by
          rw [resolveAllStep, if_neg (by simp [hman']), if_pos hauto]
        rw [hstep]
        obtain ⟨ih1, ih2⟩ := ih _
        refine ⟨?_, ?_⟩
        · rw [ih1, List.filter_cons]
          simp [hman', hauto]
        · rw [ih2, List.filter_cons]
          simp [hman', hauto]
      · have hauto' : (auto_resolve && decide ((0.8 : ℚ) ≤ (resolve c).confidence)) = false := by
          revert hauto; cases (auto_resolve && decide ((0.8 : ℚ) ≤ (resolve c).confidence)) <;> simp
        have hstep : resolveAllStep auto_resolve resolve acc c
            = ({ acc.1 with manual_required := acc.1.manual_required + 1 }, acc.2) := by
          rw [resolveAllStep, if_neg (by simp [hman']), if_neg (by simp [hauto'])]
        rw [hstep]
        obtain ⟨ih1, ih2⟩ := ih _
        refine ⟨?_, ?_⟩
        · rw [ih1, List.filter_cons]
          simp [hman', hauto']
        · rw [ih2, List.filter_cons]
          simp [hman', hauto']
          omega

/-! ### `ConflictResolver._deep_merge_json` (conflict_resolver.py)

JSON values as produced by `json.loads`: `None`, `bool`, numbers (the
integer case suffices for the claims), strings, lists and dicts. Python
dicts are ordered with unique keys; they are modelled as association lists
(the theorems assume key uniqueness where the source relies on it). -/

inductive J where
  | null : J
  | bool : Bool → J
  | num : Int → J
  | str : String → J
  | arr : List J → J
  | obj : List (String × J) → J

/-- Hashable JSON leaves: `dict.fromkeys` requires hashable keys, which in
JSON terms means anything but a list or a dict. -/
def isScalar : J → Bool
  | .null => true
  | .bool _ => true
  | .num _ => true
  | .str _ => true
  | .arr _ => false
  | .obj _ => false

/-- Python `==` on hashable JSON leaves; note `True == 1` and `False == 0`. -/
def scalarEq : J → J → Bool
  | .null, .null => true
  | .bool a, .bool b => decide (a = b)
  | .num a, .num b => decide (a = b)
  | .str a, .str b => decide (a = b)
  | .bool a, .num n => decide ((if a then (1 : Int) else 0) = n)
  | .num n, .bool a => decide (n = (if a then (1 : Int) else 0))
  | _, _ => false

/-- `list(dict.fromkeys(xs))`: de-duplicate keeping the first occurrence,
preserving order. -/
def pyDedup (l : List J) : List J :=
  l.foldl (fun acc x => if acc.any (fun y => scalarEq y x) then acc else acc ++ [x]) []

/-- First-match association lookup (Python `d[k]` / `k in d` on the model). -/
def jLookup (l : List (String × J)) (k : String) : Option J :=
  match l with
  | [] => none
  | p :: rest => if p.1 = k then some p.2 else jLookup rest k

theorem jLookup_sizeOf : ∀ (l : List (String × J)) (k : String) (v : J),
    jLookup l k = some v → sizeOf v < sizeOf l := by
  intro l
  induction l with
  | nil => intro k v h; simp [jLookup] at h
  | cons p rest ih =>
    intro k v h
    rw [jLookup] at h
    split at h
    · cases h
      cases p with
      | mk a b => simp; omega
    · have := ih k v h
      simp
      omega

mutual

/-- `_deep_merge_json(local, remote)`: two dicts merge recursively
(shared keys merged in place in local order, new remote keys appended in
remote order); two lists merge as `list(dict.fromkeys(local + remote))`,
which raises `TypeError` (modelled as `none`) when any element is
unhashable, i.e. itself a list or dict; in every other case the remote
value wins. -/
def deepMerge : J → J → Option J
  | .obj lo, .obj ro =>
    match mergeLocalPairs lo ro with
    | none => none
    | some merged =>
      some (.obj (merged ++ ro.filter (fun p => !(jLookup lo p.1).isSome)))
  | .arr la, .arr ra =>
    if (la ++ ra).all isScalar then some (.arr (pyDedup (la ++ ra))) else none
  | _, r => some r
termination_by l r => sizeOf l + sizeOf r
decreasing_by
  · simp
    omega

/-- The pass of `_deep_merge_json` over the local pairs: a key also present
in remote gets the recursive merge of the two values, other keys keep the
local value; failure of any recursive merge propagates. -/
def mergeLocalPairs : List (String × J) → List (String × J) → Option (List (String × J))
  | [], _ => some []
  | (k, lv) :: rest, ro =>
    match hrv : jLookup ro k with
    | some rv =>
      match deepMerge lv rv with
      | none => none
      | some v =>
        match mergeLocalPairs rest ro with
        | none => none
        | some tail => some ((k, v) :: tail)
    | none =>
      match mergeLocalPairs rest ro with
      | none => none
      | some tail => some ((k, lv) :: tail)
termination_by lo ro => sizeOf lo + sizeOf ro
decreasing_by
  all_goals first
    | (simp
       omega)
    | (simp
       have hsz := jLookup_sizeOf ro k rv hrv
       omega)
    | simp

end

theorem jLookup_append (a b : List (String × J)) (k : String) :
    jLookup (a ++ b) k = match jLookup a k with
      | some v => some v
      | none => jLookup b k := by
  induction a with
  | nil => simp [jLookup]
  | cons p rest ih =>
    rw [List.cons_append, jLookup, jLookup]
    by_cases h : p.1 = k
    · rw [if_pos h, if_pos h]
    · rw [if_neg h, if_neg h, ih]

theorem jLookup_filter_keep (ro : List (String × J)) (k : String) (p : String × J → Bool)
    (hall : ∀ pr ∈ ro, pr.1 = k → p pr = true) :
    jLookup (ro.filter p) k = jLookup ro k := by
  induction ro with
  | nil => rfl
  | cons q rest ih =>
    have ih' := ih (fun pr hpr hk => hall pr (List.mem_cons_of_mem q hpr) hk)
    rw [List.filter_cons]
    by_cases hq : q.1 = k
    · rw [hall q (List.mem_cons_self q rest) hq]
      rw [if_pos rfl, jLookup, jLookup, if_pos hq, if_pos hq]
    · cases hpq : p q with
      | true =>
        rw [if_pos rfl, jLookup, jLookup, if_neg hq, if_neg hq, ih']
      | false =>
        rw [if_neg (by simp), jLookup, if_neg hq, ih']

theorem jLookup_filter_none (l : List (String × J)) (k : String) (p : String × J → Bool)
    (hall : ∀ pr ∈ l, pr.1 = k → p pr = false) :
    jLookup (l.filter p) k = none := by
  induction l with
  | nil => rfl
  | cons q rest ih =>
    have ih' := ih (fun pr hpr hk => hall pr (List.mem_cons_of_mem q hpr) hk)
    rw [List.filter_cons]
    by_cases hq : q.1 = k
    · rw [hall q (List.mem_cons_self q rest) hq, if_neg (by simp), ih']
    · cases hpq : p q with
      | true => rw [if_pos rfl, jLookup, if_neg hq, ih']
      | false => rw [if_neg (by simp), ih']

theorem mergeLocalPairs_lookup : ∀ (lo ro mm : List (String × J)),
    mergeLocalPairs lo ro = some mm → ∀ k,
    jLookup mm k = (match jLookup lo k with
      | some lv => (match jLookup ro k with
        | some rv => deepMerge lv rv
        | none => some lv)
      | none => none) := by
  intro lo
  induction lo with
  | nil =>
    intro ro mm h k
    simp only [mergeLocalPairs] at h
    cases h
    simp [jLookup]
  | cons p rest ih =>
    intro ro mm h k
    obtain ⟨k0, lv0⟩ := p
    simp only [mergeLocalPairs] at h
    split at h
    · rename_i rv0 hrv0
      split at h
      · exact absurd h (by simp)
      · rename_i v0 hmerge
        split at h
        · exact absurd h (by simp)
        · rename_i tail htail
          cases h
          rw [jLookup]
          by_cases hk : k0 = k
          · subst hk
            rw [if_pos rfl]
            show some v0 = (match jLookup ((k0, lv0) :: rest) k0 with
              | some lv => (match jLookup ro k0 with
                | some rv => deepMerge lv rv
                | none => some lv)
              | none => none)
            rw [jLookup, if_pos rfl]
            dsimp only
            rw [hrv0]
            dsimp only
            rw [hmerge]
          · rw [if_neg hk, ih ro tail htail k]
            conv_rhs => rw [jLookup, if_neg hk]
    · rename_i hrv0
      split at h
      · exact absurd h (by simp)
      · rename_i tail htail
        cases h
        rw [jLookup]
        by_cases hk : k0 = k
        · subst hk
          rw [if_pos rfl]
          show some lv0 = (match jLookup ((k0, lv0) :: rest) k0 with
            | some lv => (match jLookup ro k0 with
              | some rv => deepMerge lv rv
              | none => some lv)
            | none => none)
          rw [jLookup, if_pos rfl]
          dsimp only
          rw [hrv0]
        · rw [if_neg hk, ih ro tail htail k]
          conv_rhs => rw [jLookup, if_neg hk]

theorem deepMerge_obj_eq (lo ro : List (String × J)) :
    deepMerge (.obj lo) (.obj ro) = (match mergeLocalPairs lo ro with
      | none => none
      | some merged =>
        some (.obj (merged ++ ro.filter (fun p => !(jLookup lo p.1).isSome)))) := by
  simp only [deepMerge]

theorem deepMerge_obj_lookup {lo ro : List (String × J)} {res : J}
    (h : deepMerge (.obj lo) (.obj ro) = some res) :
    ∃ m, res = .obj m ∧ ∀ k, jLookup m k = (match jLookup lo k with
      | some lv => (match jLookup ro k with
        | some rv => deepMerge lv rv
        | none => some lv)
      | none => jLookup ro k) := by
  rw [deepMerge_obj_eq] at h
  split at h
  · exact absurd h (by simp)
  · rename_i merged hmerged
    cases h
    refine ⟨_, rfl, ?_⟩
    intro k
    rw [jLookup_append, mergeLocalPairs_lookup lo ro merged hmerged k]
    cases hlo : jLookup lo k with
    | some lv =>
      dsimp only
      cases hro : jLookup ro k with
      | some rv =>
        dsimp only
        cases hm : deepMerge lv rv with
        | some v => rfl
        | none =>
          exact jLookup_filter_none ro k _ (fun pr hpr hk => by rw [hk, hlo]; rfl)
      | none => rfl
    | none =>
      dsimp only
      exact jLookup_filter_keep ro k _ (fun pr hpr hk => by rw [hk, hlo]; rfl)

theorem deepMerge_arr (la ra : List J) :
    deepMerge (.arr la) (.arr ra)
      = if (la ++ ra).all isScalar then some (.arr (pyDedup (la ++ ra))) else none := by
  simp only [deepMerge]

theorem deepMerge_scalar (a b : J) (ha : isScalar a = true) (hb : isScalar b = true) :
    deepMerge a b = some b := by
  cases a <;> cases b <;> simp_all [isScalar, deepMerge]

/-! ### The migration state machine: `base.py`, backup create/restore and
`UpgradeAssistant.perform_upgrade`

The configuration tree is the association of tracked file paths to their
contents; the backup store is the association of backup names to archives
(an archive maps member paths to contents and carries the extra
`backup_metadata.json` member). Every tracked file matches the backup
patterns, so an archive snapshots `files` wholesale. Filesystem exceptions
(full disk, permissions, corrupt zip, ...) are modelled by failure oracles
saying at which point, if any, an operation raises. -/

inductive MigrationStatus where
  | pending
  | inProgress
  | success
  | failed
  | rollbackRequired
deriving DecidableEq, Repr

/-- `MigrationResult` dataclass (fields the claims consult). -/
structure MigrationResult where
  status : MigrationStatus
  message : String
  source_version : Option String := none
  target_version : Option String := none
  files_affected : List String := []
  backup_path : Option String := none
  errors : List String := []
  warnings : List String := []
deriving DecidableEq, Repr

def lookupEntry {α : Type} (l : List (String × α)) (k : String) : Option α :=
  match l with
  | [] => none
  | p :: rest => if p.1 = k then some p.2 else lookupEntry rest k

/-- Writing a file: overwrite in place when the path exists, append otherwise. -/
def setEntry {α : Type} (l : List (String × α)) (k : String) (v : α) : List (String × α) :=
  if l.any (fun p => decide (p.1 = k)) then
    l.map (fun p => if p.1 = k then (k, v) else p)
  else l ++ [(k, v)]

structure ConfigState where
  files : List (String × String)
  backups : List (String × List (String × String))
deriving DecidableEq, Repr

structure BackupInfo where
  name : String
  path : String
deriving DecidableEq, Repr

def backupPathOf (name : String) : String := ".claude/backups/" ++ name ++ ".zip"

def metadataMember : String := "backup_metadata.json"

/-- `BackupManager.create_backup`: write the archive (config files, then the
metadata member) under the timestamp-derived `name`. `failAt = some k`
models an exception raised after `k` files have been written: the partially
written archive is unlinked before the error propagates. `failAt = none` is
the success path. -/
def createBackup (st : ConfigState) (name description : String) (failAt : Option Nat) :
    ConfigState × Except String BackupInfo :=
  match failAt with
  | some k =>
    (⟨st.files,
      (setEntry st.backups name (st.files.take k)).filter (fun e => !decide (e.1 = name))⟩,
      .error ("Backup creation failed: raised after " ++ toString k ++ " files"))
  | none =>
    (⟨st.files, setEntry st.backups name (st.files ++ [(metadataMember, description)])⟩,
      .ok ⟨name, backupPathOf name⟩)

/-- Exception points inside `restore_backup`'s `try` block. -/
structure RestoreOracle where
  safetyFail : Option Nat := none
  extractFail : Option Nat := none
deriving Repr

/-- `BackupManager.restore_backup(backup_name, confirm)`: fail when the
archive is missing; fail when confirmation is not given; otherwise create a
safety backup (under `safetyName`) and extract every member except the
metadata entry over the configuration tree. Any exception inside the `try`
block is caught and returned as a FAILED result. -/
def restoreBackup (st : ConfigState) (backup_name : String) (confirm : Bool)
    (o : RestoreOracle) (safetyName : String) : ConfigState × MigrationResult :=
  match lookupEntry st.backups backup_name with
  | none =>
    (st, { status := .failed
           message := "Backup not found: " ++ backup_name
           errors := ["File not found: " ++ backupPathOf backup_name] })
  | some archive =>
    if !confirm then
      (st, { status := .failed
             message := "Restore cancelled - confirmation required"
             warnings := ["Use confirm=True to proceed with restore"] })
    else
      match createBackup st safetyName ("Pre-restore safety backup before " ++ backup_name)
          o.safetyFail with
      | (st1, .error e) =>
        (st1, { status := .failed
                message := "Failed to restore backup " ++ backup_name ++ ": " ++ e
                errors := [e] })
      | (st1, .ok safety) =>
        match o.extractFail with
        | some k =>
          (⟨((archive.filter (fun m => !decide (m.1 = metadataMember))).take k).foldl
              (fun fs m => setEntry fs m.1 m.2) st1.files, st1.backups⟩,
            { status := .failed
              message := "Failed to restore backup " ++ backup_name ++ ": extract error"
              errors := ["extract error"] })
        | none =>
          (⟨(archive.filter (fun m => !decide (m.1 = metadataMember))).foldl
              (fun fs m => setEntry fs m.1 m.2) st1.files, st1.backups⟩,
            { status := .success
              message := "Configuration restored from backup: " ++ backup_name
              files_affected :=
                (archive.filter (fun m => !decide (m.1 = metadataMember))).map Prod.fst
              backup_path := some safety.path })

inductive StepAction where
  | copy
  | modify
  | delete
  | create
deriving DecidableEq, Repr

/-- `UpgradeStep` dataclass. -/
structure UpgradeStep where
  description : String
  action : StepAction
  source_path : Option String := none
  target_path : Option String := none
  content : Option String := none
  backup_required : Bool := true
deriving DecidableEq, Repr

/-- Python string `>=` (lexicographic by code point). -/
def pyStrGe (a b : String) : Bool := !lexLt a.data b.data

/-- `UpgradeAssistant._generate_upgrade_steps`: version marker, metadata
refresh, then feature steps gated by Python string comparison of the target
version against fixed thresholds. The detected current version is unused by
the source. -/
def generateUpgradeSteps (target_version : String) : List UpgradeStep :=
  [{ description := "Update version metadata", action := .create,
     target_path := some ".version", content := some target_version },
   { description := "Update configuration metadata", action := .modify,
     target_path := some ".metadata.json" }]
  ++ (if pyStrGe target_version "1.1.0" then
        [{ description := "Add persona support to configuration", action := .modify,
           target_path := some "CLAUDE.md" }]
      else [])
  ++ (if pyStrGe target_version "1.2.0" then
        [{ description := "Enhance security settings", action := .modify,
           target_path := some ".claude/settings.json" }]
      else [])

/-- `UpgradeAssistant._execute_upgrade_step`: `create` writes the content,
`modify` rewrites an existing file in place, `copy` copies a file (raising
when the source is missing), `delete` unlinks; falsy (`None` or empty)
paths/contents make the step a no-op returning no affected file. -/
def executeUpgradeStep (files : List (String × String)) (step : UpgradeStep) :
    Except String (List (String × String) × Option String) :=
  match step.action with
  | .create =>
    match step.target_path, step.content with
    | some p, some c =>
      if p = "" || c = "" then .ok (files, none)
      else .ok (setEntry files p c, some p)
    | _, _ => .ok (files, none)
  | .modify =>
    match step.target_path with
    | some p =>
      if p = "" then .ok (files, none)
      else
        match lookupEntry files p with
        | some c => .ok (setEntry files p c, some p)
        | none => .ok (files, none)
    | none => .ok (files, none)
  | .copy =>
    match step.source_path, step.target_path with
    | some sp, some tp =>
      if sp = "" || tp = "" then .ok (files, none)
      else
        match lookupEntry files sp with
        | some c => .ok (setEntry files tp c, some tp)
        | none => .error ("No such file: " ++ sp)
    | _, _ => .ok (files, none)
  | .delete =>
    match step.target_path with
    | some p =>
      if p = "" then .ok (files, none)
      else if (lookupEntry files p).isSome then
        .ok (files.filter (fun e => !decide (e.1 = p)), some p)
      else .ok (files, none)
    | none => .ok (files, none)

/-- The step loop of `perform_upgrade`: run the steps in order, collecting
affected files; `stepFail i = some e` models an exception raised by step
`i` (an environment error such as a permission failure); the first failure
stops the loop and reports the failing step, the message, and the files as
they stand. -/
def runUpgradeSteps (stepFail : Nat → Option String) :
    List UpgradeStep → Nat → List (String × String) → List String →
    (List (String × String) × List String) ⊕ (UpgradeStep × String × List (String × String))
  | [], _, files, affected => .inl (files, affected)
  | step :: rest, i, files, affected =>
    match stepFail i with
    | some e => .inr (step, e, files)
    | none =>
      match executeUpgradeStep files step with
      | .error e => .inr (step, e, files)
      | .ok (files2, af) =>
        runUpgradeSteps stepFail rest (i + 1) files2
          (affected ++ (match af with | some p => [p] | none => []))

/-- Exception points in a `perform_upgrade` run. -/
structure UpgradeOracle where
  backupFail : Option Nat := none
  stepFail : Nat → Option String := fun _ => none
  restore : RestoreOracle := {}

def optVersionStr (v : Option Version) : String :=
  match v with
  | some x => (renderVersion x).asString
  | none => "None"

/-- Continuation of `perform_upgrade` after the optional pre-upgrade backup:
run the generated steps; on a step failure, restore the pre-upgrade backup
when one was made (ignoring the restore's own result) and return FAILED
with the failing step's description and the backup path; on success parse
and persist the target version (a parse failure is caught by the outer
`except` and returned as FAILED). The further metadata refresh only runs
when a well-formed `.metadata.json` was loadable and is not modelled. -/
def performUpgradeSteps (st : ConfigState) (curStr : Option String)
    (target_version : String) (backup_info : Option BackupInfo) (o : UpgradeOracle)
    (safetyName : String) : ConfigState × MigrationResult :=
  match runUpgradeSteps o.stepFail (generateUpgradeSteps target_version) 0 st.files [] with
  | .inr (step, e, filesF) =>
    ((match backup_info with
      | some info => (restoreBackup ⟨filesF, st.backups⟩ info.name true o.restore safetyName).1
      | none => ⟨filesF, st.backups⟩),
      { status := .failed
        message := "Upgrade failed at step: " ++ step.description
        source_version := curStr
        target_version := some target_version
        backup_path := backup_info.map BackupInfo.path
        errors := [e] })
  | .inl (files2, affected) =>
    match parseVersion target_version.data with
    | none =>
      (⟨files2, st.backups⟩,
        { status := .failed
          message := "Upgrade failed: Invalid version string: " ++ target_version
          source_version := curStr
          target_version := some target_version
          errors := ["Invalid version string: " ++ target_version] })
    | some nv =>
      (⟨setEntry files2 ".version" (renderVersion nv).asString, st.backups⟩,
        { status := .success
          message := "Successfully upgraded from " ++
            (match curStr with | some s => s | none => "None") ++ " to " ++ target_version
          source_version := curStr
          target_version := some target_version
          files_affected := affected
          backup_path := backup_info.map BackupInfo.path })

/-- `UpgradeAssistant.perform_upgrade(target_version, create_backup)`:
optionally create the pre-upgrade backup (its failure is caught by the
outer `except` and returned as FAILED), then run the steps. -/
def performUpgrade (st : ConfigState) (current_version : Option Version)
    (target_version : String) (create_backup backup_enabled : Bool)
    (backupName safetyName : String) (o : UpgradeOracle) : ConfigState × MigrationResult :=
  let curStr : Option String := current_version.map (fun v => (renderVersion v).asString)
  if create_backup && backup_enabled then
    match createBackup st backupName
        ("Pre-upgrade backup from " ++ optVersionStr current_version ++ " to " ++ target_version)
        o.backupFail with
    | (st1, .error e) =>
      (st1, { status := .failed
              message := "Upgrade failed: " ++ e
              source_version := curStr
              target_version := some target_version
              errors := [e] })
    | (st1, .ok info) =>
      performUpgradeSteps st1 curStr target_version (some info) o safetyName
  else
    performUpgradeSteps st curStr target_version none o safetyName

theorem lookupEntry_filter_ne {α : Type} (l : List (String × α)) (n : String) :
    lookupEntry (l.filter (fun e => !decide (e.1 = n))) n = none := by
  induction l with
  | nil => rfl
  | cons p rest ih =>
    rw [List.filter_cons]
    by_cases hp : p.1 = n
    · rw [if_neg (by simp [hp])]
      exact ih
    · rw [if_pos (by simp [hp]), lookupEntry, if_neg hp]
      exact ih

theorem lookupEntry_none_all {α : Type} (l : List (String × α)) (n : String)
    (h : lookupEntry l n = none) : ∀ e ∈ l, e.1 ≠ n := by
  induction l with
  | nil => simp
  | cons p rest ih =>
    rw [lookupEntry] at h
    split at h
    · exact absurd h (by simp)
    · intro e he
      rcases List.mem_cons.mp he with rfl | he'
      · assumption
      · exact ih h e he'

example : parseVersion "1.2.3-alpha+build.1".data =
    some ⟨1, 2, 3, some "alpha".data, some "build.1".data⟩ := by decide

example : parseVersion "  10.0.7  ".data = some ⟨10, 0, 7, none, none⟩ := by decide

example : parseVersion "1.2".data = none := by decide

example : parseVersion "1.2.3.4".data = none := by decide

example : parseVersion "1.2.3-".data = none := by decide

example : parseVersion "1.2.3-a+b+c".data = none := by decide

example : (renderVersion ⟨1, 2, 3, some "alpha".data, some "b1".data⟩).asString
    = "1.2.3-alpha+b1" := by decide

example : vlt ⟨1, 2, 3, some "alpha".data, none⟩ ⟨1, 2, 3, none, none⟩ = true := by decide

example : vlt ⟨1, 2, 3, none, none⟩ ⟨1, 2, 3, some "alpha".data, none⟩ = false := by decide

example : veq ⟨1, 2, 3, none, some "x".data⟩ ⟨1, 2, 3, none, some "y".data⟩ = true := by decide

/-! ## The claims -/

/-- Claim C2 (amended): calling `restore_backup` with `confirm = false` always
returns a FAILED result and performs zero filesystem changes — the
configuration tree and the backup store are untouched; the result's message
is the confirmation-required one whenever the named backup exists (when it
does not, the earlier existence check produces the backup-not-found FAILED
message instead). -/
theorem restore_unconfirmed_no_changes (st : ConfigState) (backup_name : String)
    (o : RestoreOracle) (safetyName : String) :
    (restoreBackup st backup_name false o safetyName).1 = st ∧
    (restoreBackup st backup_name false o safetyName).2.status = .failed ∧
    ((lookupEntry st.backups backup_name).isSome = true →
      (restoreBackup st backup_name false o safetyName).2.message
        = "Restore cancelled - confirmation required") := by
  cases h : lookupEntry st.backups backup_name with
  | none => refine ⟨?_, ?_, ?_⟩ <;> simp [restoreBackup, h]
  | some archive => refine ⟨?_, ?_, ?_⟩ <;> simp [restoreBackup, h]

/-- Witness for C2's amended theorem at a store containing the backup. -/
theorem restore_unconfirmed_no_changes_witness :
    (restoreBackup ⟨[], [("b1", [("f", "c")])]⟩ "b1" false {} "s").2.message
      = "Restore cancelled - confirmation required" :=
  (restore_unconfirmed_no_changes ⟨[], [("b1", [("f", "c")])]⟩ "b1" {} "s").2.2 (by decide)

/-- Counterexample to claim C2 as stated: with a backup name not present in
the store, `restore_backup(confirm=false)` fails with the backup-not-found
message, not the confirmation-required one (the claim quantifies over every
backup name and state). -/
theorem restore_unconfirmed_message_counterexample :
    (restoreBackup ⟨[], []⟩ "missing" false {} "s").2.status = .failed ∧
    (restoreBackup ⟨[], []⟩ "missing" false {} "s").2.message
      = "Backup not found: missing" ∧
    (restoreBackup ⟨[], []⟩ "missing" false {} "s").2.message
      ≠ "Restore cancelled - confirmation required" := by
  refine ⟨rfl, rfl, ?_⟩
  decide

/-- Claim C3: when backup creation fails partway through (an exception after
any number of files), the partially written archive is unlinked before the
error is reported: the failed backup's name is absent from the resulting
store, the configuration files are untouched, and (when the name was fresh,
as the timestamp naming ensures) the store is exactly as before. -/
theorem createBackup_failure_no_partial (st : ConfigState) (name description : String)
    (k : Nat) (st' : ConfigState) (e : String)
    (h : createBackup st name description (some k) = (st', .error e)) :
    lookupEntry st'.backups name = none ∧ st'.files = st.files ∧
      (lookupEntry st.backups name = none → st'.backups = st.backups) := by
  rw [createBackup] at h
  have hst : st' = ⟨st.files,
      (setEntry st.backups name (st.files.take k)).filter (fun e => !decide (e.1 = name))⟩ := by
    have := congrArg Prod.fst h
    exact this.symm
  subst hst
  refine ⟨lookupEntry_filter_ne _ name, rfl, ?_⟩
  intro hnone
  have hall := lookupEntry_none_all st.backups name hnone
  have hany : st.backups.any (fun p => decide (p.1 = name)) = false := by
    cases hA : st.backups.any (fun p => decide (p.1 = name)) with
    | false => rfl
    | true =>
      rcases List.any_eq_true.mp hA with ⟨p, hp, hpn⟩
      exact absurd (of_decide_eq_true hpn) (hall p hp)
  show (setEntry st.backups name (st.files.take k)).filter
      (fun e => !decide (e.1 = name)) = st.backups
  rw [setEntry, if_neg (by simp [hany]), List.filter_append,
    filter_eq_self_of st.backups (fun p hp => by simp [hall p hp]),
    filter_eq_nil_of [(name, st.files.take k)] (fun p hp => by
      rcases List.mem_singleton.mp hp with rfl
      simp),
    List.append_nil]

/-- Witness for C3 at a concrete failing create. -/
theorem createBackup_failure_no_partial_witness :
    lookupEntry (ConfigState.mk [("CLAUDE.md", "x")] []).backups "b" = none ∧
    (ConfigState.mk [("CLAUDE.md", "x")] []).files
      = (ConfigState.mk [("CLAUDE.md", "x")] []).files ∧
    (lookupEntry (ConfigState.mk [("CLAUDE.md", "x")] []).backups "b" = none →
      (ConfigState.mk [("CLAUDE.md", "x")] []).backups
        = (ConfigState.mk [("CLAUDE.md", "x")] []).backups) :=
  createBackup_failure_no_partial (ConfigState.mk [("CLAUDE.md", "x")] []) "b" ""
    0 (ConfigState.mk [("CLAUDE.md", "x")] [])
    "Backup creation failed: raised after 0 files" rfl

/-- Claim C1 (amended): in an upgrade run with the pre-upgrade backup made,
when some step fails, the pre-upgrade backup's restore is invoked (with
confirmation forced) and the run returns FAILED carrying the failing step's
description and the backup path; the status is FAILED even when that
restore itself fails — `perform_upgrade` never returns ROLLBACK_REQUIRED. -/
theorem performUpgrade_step_failure (st : ConfigState) (current_version : Option Version)
    (target_version backupName safetyName : String) (o : UpgradeOracle)
    (hbackup : o.backupFail = none)
    (step : UpgradeStep) (e : String) (filesF : List (String × String))
    (hrun : runUpgradeSteps o.stepFail (generateUpgradeSteps target_version) 0 st.files []
      = .inr (step, e, filesF)) :
    (performUpgrade st current_version target_version true true backupName safetyName o).2.status
      = .failed ∧
    (performUpgrade st current_version target_version true true backupName safetyName o).2.message
      = "Upgrade failed at step: " ++ step.description ∧
    (performUpgrade st current_version target_version true true backupName
        safetyName o).2.backup_path
      = some (backupPathOf backupName) ∧
    (performUpgrade st current_version target_version true true backupName safetyName o).2.errors
      = [e] ∧
    (performUpgrade st current_version target_version true true backupName safetyName o).1
      = (restoreBackup
          ⟨filesF, setEntry st.backups backupName
            (st.files ++ [(metadataMember,
              "Pre-upgrade backup from " ++ optVersionStr current_version ++ " to "
                ++ target_version)])⟩
          backupName true o.restore safetyName).1 ∧
    (performUpgrade st current_version target_version true true backupName safetyName o).2.status
      ≠ .rollbackRequired := by
  unfold performUpgrade
  rw [hbackup]
  simp only [Bool.and_self, eq_self_iff_true, if_true]
  dsimp only [createBackup]
  unfold performUpgradeSteps
  dsimp only
  rw [hrun]
  dsimp only
  exact ⟨rfl, rfl, rfl, rfl, rfl, by decide⟩

/-- Witness for C1's amended theorem at a concrete failing run. -/
theorem performUpgrade_step_failure_witness :
    (performUpgrade ⟨[(".version", "1.0.0")], []⟩ (some ⟨1, 0, 0, none, none⟩) "1.1.0"
        true true "b0" "s0"
        ⟨none, fun i => if i = 0 then some "disk full" else none, {}⟩).2.status
      = MigrationStatus.failed :=
  (performUpgrade_step_failure ⟨[(".version", "1.0.0")], []⟩ (some ⟨1, 0, 0, none, none⟩)
    "1.1.0" "b0" "s0" ⟨none, fun i => if i = 0 then some "disk full" else none, {}⟩ rfl
    { description := "Update version metadata", action := .create, source_path := none,
      target_path := some ".version", content := some "1.1.0", backup_required := true }
    "disk full" [(".version", "1.0.0")] (by decide)).1

/-- Counterexample to claim C1 as stated: a run whose first step fails and
whose rollback restore itself fails (the safety backup inside
`restore_backup` raises, so the restore returns FAILED, as the first
conjunct shows on the exact state the run passes it); the run still
returns FAILED — not ROLLBACK_REQUIRED, which `perform_upgrade` never
produces. -/
theorem performUpgrade_rollback_failure_counterexample :
    (restoreBackup ⟨[(".version", "1.0.0")],
        [("b0", [(".version", "1.0.0"),
          ("backup_metadata.json", "Pre-upgrade backup from 1.0.0 to 1.1.0")])]⟩
        "b0" true { safetyFail := some 0, extractFail := none } "s0").2.status
      = MigrationStatus.failed ∧
    (performUpgrade ⟨[(".version", "1.0.0")], []⟩ (some ⟨1, 0, 0, none, none⟩) "1.1.0"
        true true "b0" "s0"
        ⟨none, fun i => if i = 0 then some "disk full" else none,
          { safetyFail := some 0, extractFail := none }⟩).1
      = (restoreBackup ⟨[(".version", "1.0.0")],
          [("b0", [(".version", "1.0.0"),
            ("backup_metadata.json", "Pre-upgrade backup from 1.0.0 to 1.1.0")])]⟩
          "b0" true { safetyFail := some 0, extractFail := none } "s0").1 ∧
    (performUpgrade ⟨[(".version", "1.0.0")], []⟩ (some ⟨1, 0, 0, none, none⟩) "1.1.0"
        true true "b0" "s0"
        ⟨none, fun i => if i = 0 then some "disk full" else none,
          { safetyFail := some 0, extractFail := none }⟩).2.status
      = MigrationStatus.failed ∧
    MigrationStatus.failed ≠ MigrationStatus.rollbackRequired := by
  refine ⟨rfl, rfl, rfl, by decide⟩

/-- Claim C4: every version string accepted by `parse_version`, rendered by
`Version.__str__` and parsed again, yields a Version equal (in the sense of
`Version.__eq__`) to the first parse's result. -/
theorem parse_render_roundtrip (s : List Char) (v : Version) (h : parseVersion s = some v) :
    ∃ w, parseVersion (renderVersion v) = some w ∧ veq w v = true :=
  ⟨v, parseVersion_renderVersion v (parseVersion_wf h), veq_refl v⟩

/-- Witness for C4 at a concrete version string with all components. -/
theorem parse_render_roundtrip_witness :
    ∃ w, parseVersion (renderVersion ⟨1, 2, 3, some "alpha".data, some "b1".data⟩) = some w ∧
      veq w ⟨1, 2, 3, some "alpha".data, some "b1".data⟩ = true :=
  parse_render_roundtrip "1.2.3-alpha+b1".data ⟨1, 2, 3, some "alpha".data, some "b1".data⟩
    (by decide)

/-- Claim C5: `Version.__lt__` compares the `(major, minor, patch)` triples
lexicographically first; with equal triples, a version with no pre-release
tag is greater than any with one (so never less), and two pre-release tags
compare by plain lexicographic string order (`List.Lex` on code points). -/
theorem vlt_spec (a b : Version) :
    vlt a b = true ↔
      ((a.major < b.major ∨ (a.major = b.major ∧
          (a.minor < b.minor ∨ (a.minor = b.minor ∧ a.patch < b.patch))))
        ∨ ((a.major = b.major ∧ a.minor = b.minor ∧ a.patch = b.patch) ∧
            (match a.pre_release, b.pre_release with
             | some _, none => True
             | some p, some q => List.Lex (· < ·) p q
             | _, _ => False))) := by
  unfold vlt
  by_cases hteq : tripleEq a b = true
  · obtain ⟨h1, h2, h3⟩ := of_decide_eq_true hteq
    rw [hteq, if_neg (by simp)]
    have hlt : ¬(a.major < b.major ∨ (a.major = b.major ∧
        (a.minor < b.minor ∨ (a.minor = b.minor ∧ a.patch < b.patch)))) := by
      omega
    cases hpa : a.pre_release with
    | none =>
      cases hpb : b.pre_release with
      | none => simp [hlt]
      | some q => simp [hlt]
    | some p =>
      cases hpb : b.pre_release with
      | none => simp [hlt, h1, h2, h3]
      | some q =>
        rw [lexLt_iff_lex p q]
        simp [hlt, h1, h2, h3]
  · have hteq' : tripleEq a b = false := by
      revert hteq; cases tripleEq a b <;> simp
    have hne : ¬(a.major = b.major ∧ a.minor = b.minor ∧ a.patch = b.patch) :=
      of_decide_eq_false hteq'
    rw [hteq', if_pos (by simp), tripleLt, decide_eq_true_eq]
    constructor
    · exact Or.inl
    · intro hx
      rcases hx with hx | hx
      · exact hx
      · exact absurd hx.1 hne

/-- Claim C10: `Version.__eq__` ignores the build-metadata component — two
versions agreeing on major, minor, patch and pre-release compare equal even
with different build metadata, although `Version.__str__` renders the build
metadata (witnessed by a concrete pair rendering differently). -/
theorem veq_ignores_build :
    (∀ v w : Version, v.major = w.major → v.minor = w.minor → v.patch = w.patch →
      v.pre_release = w.pre_release → veq v w = true)
    ∧ veq ⟨1, 2, 3, none, some "a".data⟩ ⟨1, 2, 3, none, some "b".data⟩ = true
    ∧ renderVersion ⟨1, 2, 3, none, some "a".data⟩
        ≠ renderVersion ⟨1, 2, 3, none, some "b".data⟩ := by
  refine ⟨?_, by decide, by decide⟩
  intro v w h1 h2 h3 h4
  simp [veq, h1, h2, h3, h4]

/-- Witness for C10's universally quantified clause at a concrete pair with
differing build metadata. -/
theorem veq_ignores_build_witness :
    veq ⟨0, 0, 1, some "rc".data, none⟩ ⟨0, 0, 1, some "rc".data, some "m5".data⟩ = true :=
  veq_ignores_build.1 ⟨0, 0, 1, some "rc".data, none⟩ ⟨0, 0, 1, some "rc".data, some "m5".data⟩
    rfl rfl rfl rfl

theorem vle_refl (v : Version) : vle v v = true := by
  simp [vle, veq_refl]

theorem find_first_gt_minimal {cv : Version} : ∀ (l : List Version) (v : Version),
    List.Pairwise (fun a b => vle a b = true) l →
    List.find? (fun x => vgt x cv) l = some v →
    v ∈ l ∧ vgt v cv = true ∧ ∀ w ∈ l, vgt w cv = true → vle v w = true := by
  intro l
  induction l with
  | nil => intro v _ h; simp [List.find?] at h
  | cons a l ih =>
    intro v hpair h
    rw [List.find?] at h
    cases ha : vgt a cv with
    | true =>
      rw [ha] at h
      cases h
      refine ⟨List.mem_cons_self a l, ha, ?_⟩
      intro w hw _
      rcases List.mem_cons.mp hw with rfl | hw'
      · exact vle_refl w
      · exact (List.pairwise_cons.mp hpair).1 w hw'
    | false =>
      rw [ha] at h
      obtain ⟨hmem, hgt, hmin⟩ := ih v (List.pairwise_cons.mp hpair).2 h
      refine ⟨List.mem_cons_of_mem a hmem, hgt, ?_⟩
      intro w hw hwgt
      rcases List.mem_cons.mp hw with rfl | hw'
      · exact absurd hwgt (by simp [ha])
      · exact hmin w hw' hwgt

/-- Claim C9: for every detected current version, `check_for_upgrades`
returns the string of the smallest catalog version strictly greater than
the current one (smallest in the sense of the `Version` order: no other
catalog entry strictly greater than current lies below it), and `None` when
no catalog entry is strictly greater — in particular when the current
version is the catalog's highest entry. -/
theorem checkForUpgrades_spec (cv : Version) :
    (∀ s, checkForUpgrades (some cv) = some s →
      ∃ v, v ∈ catalogVersions ∧ vgt v cv = true ∧ s = (renderVersion v).asString ∧
        ∀ w ∈ catalogVersions, vgt w cv = true → vle v w = true)
    ∧ (checkForUpgrades (some cv) = none → ∀ w ∈ catalogVersions, vgt w cv = false) := by
  have hpair : List.Pairwise (fun a b => vle a b = true)
      (catalogVersions.insertionSort (fun a b => vlt a b = true)) := by decide
  have hperm : (catalogVersions.insertionSort (fun a b => vlt a b = true)).Perm
      catalogVersions := List.perm_insertionSort _ _
  constructor
  · intro s hs
    simp only [checkForUpgrades] at hs
    cases hfind : List.find? (fun v => vgt v cv)
        (catalogVersions.insertionSort (fun a b => vlt a b = true)) with
    | none => rw [hfind] at hs; simp at hs
    | some v =>
      rw [hfind] at hs
      simp only [Option.map_some', Option.some.injEq] at hs
      obtain ⟨hmem, hgt, hmin⟩ := find_first_gt_minimal _ v hpair hfind
      exact ⟨v, hperm.subset hmem, hgt, hs.symm,
        fun w hw hwgt => hmin w (hperm.symm.subset hw) hwgt⟩
  · intro hnone w hw
    simp only [checkForUpgrades] at hnone
    cases hfind : List.find? (fun v => vgt v cv)
        (catalogVersions.insertionSort (fun a b => vlt a b = true)) with
    | some v => rw [hfind] at hnone; simp at hnone
    | none =>
      have hall := List.find?_eq_none.mp hfind
      have := hall w (hperm.symm.subset hw)
      revert this
      cases vgt w cv <;> simp

/-- Witness for C9: at the catalog's highest entry the result is `None` and
every catalog entry fails to be strictly greater; at version 1.1.0 the
result is 1.2.0. -/
theorem checkForUpgrades_spec_witness :
    (∀ w ∈ catalogVersions, vgt w ⟨2, 0, 1, none, none⟩ = false) ∧
    (∃ v, v ∈ catalogVersions ∧ vgt v ⟨1, 1, 0, none, none⟩ = true ∧
      "1.2.0" = (renderVersion v).asString ∧
      ∀ w ∈ catalogVersions, vgt w ⟨1, 1, 0, none, none⟩ = true → vle v w = true) :=
  ⟨(checkForUpgrades_spec ⟨2, 0, 1, none, none⟩).2 (by decide),
   (checkForUpgrades_spec ⟨1, 1, 0, none, none⟩).1 "1.2.0" (by decide)⟩

/-- Claim C6: with distinct backup names (as filesystem filenames are),
`cleanup_old_backups(keepCount)` deletes exactly `total - min(keepCount,
total)` backups — i.e. `max(total - keepCount, 0)` — returning that count,
and the surviving store is exactly (a permutation of) the first
`keepCount` entries of the newest-first listing, whose timestamps dominate
every deleted entry's. -/
theorem cleanupOldBackups_spec (store : List BackupEntry) (keepCount : Nat)
    (hnodup : (store.map BackupEntry.name).Nodup) :
    (cleanupOldBackups store keepCount).2 = store.length - min keepCount store.length
    ∧ (cleanupOldBackups store keepCount).1.Perm ((listBackups store).take keepCount)
    ∧ (∀ b ∈ (listBackups store).take keepCount, ∀ d ∈ (listBackups store).drop keepCount,
        d.timestamp ≤ b.timestamp) := by
  have hperm : (listBackups store).Perm store := List.perm_insertionSort recentFirst store
  have hlen : (listBackups store).length = store.length := hperm.length_eq
  by_cases hle : (listBackups store).length ≤ keepCount
  · have hcl : cleanupOldBackups store keepCount = (store, 0) := by
      rw [cleanupOldBackups, if_pos hle]
    rw [hcl]
    refine ⟨?_, ?_, listBackups_take_drop_recent store keepCount⟩
    · show 0 = store.length - min keepCount store.length
      omega
    · show store.Perm ((listBackups store).take keepCount)
      rw [List.take_of_length_le hle]
      exact hperm.symm
  · have hnames' : ((listBackups store).map BackupEntry.name).Nodup :=
      ((hperm.map BackupEntry.name).nodup_iff).mpr hnodup
    have hdmemb : ∀ d ∈ (listBackups store).drop keepCount,
        d.name ∈ store.map BackupEntry.name := fun d hd =>
      List.mem_map_of_mem _ (hperm.subset (List.drop_subset keepCount _ hd))
    have hdnodup : (((listBackups store).drop keepCount).map BackupEntry.name).Nodup := by
      rw [List.map_drop]
      exact List.Nodup.sublist (List.drop_sublist _ _) hnames'
    have hcl : cleanupOldBackups store keepCount
        = (store.filter (fun b =>
            !decide (b.name ∈ ((listBackups store).drop keepCount).map BackupEntry.name)),
          0 + ((listBackups store).drop keepCount).length) := by
      rw [cleanupOldBackups, if_neg hle]
      exact cleanup_deleteFold _ store 0 hdmemb hdnodup
    rw [hcl]
    refine ⟨?_, cleanup_filter_perm store keepCount hnodup,
      listBackups_take_drop_recent store keepCount⟩
    show 0 + ((listBackups store).drop keepCount).length
      = store.length - min keepCount store.length
    rw [List.length_drop, hlen]
    omega

/-- Witness for C6 at a three-backup store with `keepCount = 1`. -/
theorem cleanupOldBackups_spec_witness :
    (cleanupOldBackups [⟨"a", 1⟩, ⟨"b", 3⟩, ⟨"c", 2⟩] 1).2
      = ([⟨"a", 1⟩, ⟨"b", 3⟩, ⟨"c", 2⟩] : List BackupEntry).length
        - min 1 ([⟨"a", 1⟩, ⟨"b", 3⟩, ⟨"c", 2⟩] : List BackupEntry).length
    ∧ (cleanupOldBackups [⟨"a", 1⟩, ⟨"b", 3⟩, ⟨"c", 2⟩] 1).1.Perm
        ((listBackups [⟨"a", 1⟩, ⟨"b", 3⟩, ⟨"c", 2⟩]).take 1)
    ∧ (∀ b ∈ (listBackups [⟨"a", 1⟩, ⟨"b", 3⟩, ⟨"c", 2⟩]).take 1,
        ∀ d ∈ (listBackups [⟨"a", 1⟩, ⟨"b", 3⟩, ⟨"c", 2⟩]).drop 1,
          d.timestamp ≤ b.timestamp) :=
  cleanupOldBackups_spec [⟨"a", 1⟩, ⟨"b", 3⟩, ⟨"c", 2⟩] 1 (by decide)

/-- Claim C7: `resolve_all_conflicts` writes to disk exactly for the
conflicts whose resolution is not flagged for manual review, with
`auto_resolve` set and confidence at least 0.8 (so every write happens only
under `auto_resolve` with confidence ≥ 0.8); every other conflict — in
particular any resolution with confidence below 0.8 or flagged for manual
review — is counted `manual_required` and contributes no write. -/
theorem resolveAll_writes_spec (resolve : ConflictInfo → ConflictResolution)
    (conflicts : List ConflictInfo) (auto_resolve : Bool) :
    (resolveAllConflicts resolve conflicts auto_resolve).2
      = (conflicts.filter (fun c => !(resolve c).manual_review_required &&
          (auto_resolve && decide ((0.8 : ℚ) ≤ (resolve c).confidence)))).map
          (fun c => (c.file_path, (resolve c).resolved_content))
    ∧ (∀ w ∈ (resolveAllConflicts resolve conflicts auto_resolve).2,
        auto_resolve = true ∧ ∃ c ∈ conflicts,
          w = (c.file_path, (resolve c).resolved_content)
          ∧ (0.8 : ℚ) ≤ (resolve c).confidence
          ∧ (resolve c).manual_review_required = false)
    ∧ (resolveAllConflicts resolve conflicts auto_resolve).1.manual_required
      = (conflicts.filter (fun c => (resolve c).manual_review_required ||
          !(auto_resolve && decide ((0.8 : ℚ) ≤ (resolve c).confidence)))).length := by
  have h := resolveAll_fold auto_resolve resolve conflicts
    (⟨conflicts.length, 0, 0, 0, []⟩, [])
  have h1 : (resolveAllConflicts resolve conflicts auto_resolve).2
      = (conflicts.filter (fun c => !(resolve c).manual_review_required &&
          (auto_resolve && decide ((0.8 : ℚ) ≤ (resolve c).confidence)))).map
          (fun c => (c.file_path, (resolve c).resolved_content)) := by
    rw [resolveAllConflicts, h.1]
    simp
  refine ⟨h1, ?_, ?_⟩
  · intro w hw
    rw [h1] at hw
    rcases List.mem_map.mp hw with ⟨c, hc, rfl⟩
    obtain ⟨hc1, hc2⟩ := List.mem_filter.mp hc
    simp only [Bool.and_eq_true, Bool.not_eq_true', decide_eq_true_eq] at hc2
    exact ⟨hc2.2.1, c, hc1, rfl, hc2.2.2, hc2.1⟩
  · rw [resolveAllConflicts, h.2]
    simp

/-- Claim C8 (amended): `_deep_merge_json` merges two dicts by recursively
merging values under shared keys and taking the union of keys (local keys
first, in place; new remote keys appended); it merges two lists whose
elements are all scalars into their de-duplicated union preserving
first-seen order, but raises `TypeError` (modelled `none`) when any element
is itself a list or dict, as `dict.fromkeys` requires hashable items; when
both sides are scalars the remote value wins. -/
theorem deepMerge_spec :
    (∀ (lo ro : List (String × J)) (res : J), deepMerge (.obj lo) (.obj ro) = some res →
      ∃ m, res = .obj m ∧ ∀ k, jLookup m k = (match jLookup lo k with
        | some lv => (match jLookup ro k with
          | some rv => deepMerge lv rv
          | none => some lv)
        | none => jLookup ro k))
    ∧ (∀ la ra : List J,
        ((la ++ ra).all isScalar = true →
          deepMerge (.arr la) (.arr ra) = some (.arr (pyDedup (la ++ ra))))
        ∧ ((la ++ ra).all isScalar = false → deepMerge (.arr la) (.arr ra) = none))
    ∧ (∀ a b : J, isScalar a = true → isScalar b = true → deepMerge a b = some b) := by
  refine ⟨fun lo ro res h => deepMerge_obj_lookup h, fun la ra => ⟨?_, ?_⟩, deepMerge_scalar⟩
  · intro hall
    rw [deepMerge_arr, if_pos hall]
  · intro hall
    rw [deepMerge_arr, if_neg (by simp [hall])]

/-- Witness for C8's amended theorem: remote wins on scalars, scalar lists
dedup-merge, and a concrete dict merge takes the key union. -/
theorem deepMerge_spec_witness :
    deepMerge (J.num 1) (J.str "x") = some (J.str "x") ∧
    deepMerge (J.arr [J.num 1, J.num 2]) (J.arr [J.num 2, J.num 3])
      = some (J.arr (pyDedup ([J.num 1, J.num 2] ++ [J.num 2, J.num 3]))) ∧
    (∃ m, J.obj [("a", J.num 1), ("b", J.num 2)] = J.obj m ∧
      ∀ k, jLookup m k = (match jLookup [("a", J.num 1)] k with
        | some lv => (match jLookup [("b", J.num 2)] k with
          | some rv => deepMerge lv rv
          | none => some lv)
        | none => jLookup [("b", J.num 2)] k)) :=
  ⟨deepMerge_spec.2.2 (J.num 1) (J.str "x") rfl rfl,
   (deepMerge_spec.2.1 [J.num 1, J.num 2] [J.num 2, J.num 3]).1 rfl,
   deepMerge_spec.1 [("a", J.num 1)] [("b", J.num 2)] (J.obj [("a", J.num 1), ("b", J.num 2)])
     (by simp [deepMerge, mergeLocalPairs, jLookup])⟩

/-- Counterexample to claim C8 as stated: merging two lists one of which
contains a dict raises `TypeError` instead of producing the de-duplicated
union the claim promises for every pair of JSON values. -/
theorem deepMerge_unhashable_counterexample :
    deepMerge (J.arr [J.obj []]) (J.arr []) = none ∧
    deepMerge (J.arr [J.obj []]) (J.arr []) ≠ some (J.arr (pyDedup ([J.obj []] ++ []))) := by
  have h : deepMerge (J.arr [J.obj []]) (J.arr []) = none := by
    rw [deepMerge_arr, if_neg (by decide)]
  exact ⟨h, by rw [h]; simp⟩

theorem conf_lit_le : ((0.8 : ℚ) ≤ (0.9 : ℚ)) = True := by norm_num

/-- Witness for C7 at a singleton conflict list whose resolution has
confidence 0.9 under `auto_resolve`. -/
theorem resolveAll_writes_spec_witness :
    true = true ∧ ∃ c ∈ [ConflictInfo.mk "f.json" "l" "r"],
      (("f.json", "merged") : String × String)
        = (c.file_path, (ConflictResolution.mk "json_deep_merge" "merged" 0.9 false).resolved_content)
      ∧ (0.8 : ℚ) ≤ (ConflictResolution.mk "json_deep_merge" "merged" 0.9 false).confidence
      ∧ (ConflictResolution.mk "json_deep_merge" "merged" 0.9 false).manual_review_required
          = false :=
  (resolveAll_writes_spec (fun _ => ConflictResolution.mk "json_deep_merge" "merged" 0.9 false)
    [ConflictInfo.mk "f.json" "l" "r"] true).2.1 ("f.json", "merged")
    (by simp [resolveAllConflicts, resolveAllStep, conf_lit_le])
